import Mathlib

/-!
Verification of the target-size search engine of the autosize repository
(src/main.rs).  The search loops of find_largest_within_image and
find_largest_within_gif are embedded as one fuel-indexed transition function on
an explicit state record; the byte size measured from the filesystem after a
save at a given scale is modelled by the deterministic function encSize, the
thread-local random generator by the function rand, and f64 arithmetic by
exact rational arithmetic (all integer quantities involved are far below 2^53,
where f64 arithmetic on integers is exact; the float literals 1.05 and 0.05
are idealised to 21/20 and 1/20, and f64::MAX is the exact rational
2^1024 - 2^971).
-/

namespace Autosize

/-- One decoded frame: width and height in pixels.  The pixel contents do not
matter for any size computed here, only the dimensions. -/
structure Frame where
  width : ℕ
  height : ℕ
deriving DecidableEq

/-- Byte length of image.to_rgb8().to_vec() for one frame: 3 bytes per pixel. -/
def toRgb8Len (f : Frame) : ℕ := f.width * f.height * 3

/-- Byte length of image.to_rgba8().to_vec() for one frame: 4 bytes per pixel. -/
def toRgba8Len (f : Frame) : ℕ := f.width * f.height * 4

/-- From src/main.rs, get_gif_bytes: sums the to_rgb8 byte length of every
frame into an f64 accumulator. -/
def get_gif_bytes (frames : List Frame) : ℚ :=
  frames.foldl (fun total f => total + (toRgb8Len f : ℚ)) 0

/-- Modelled from the spec: the raw decoded pixel byte length the spec
describes for the estimator denominator, namely width times height times RGBA
(4 bytes per pixel), summed across all frames. -/
def specRawBytes (frames : List Frame) : ℚ :=
  frames.foldl (fun total f => total + (toRgba8Len f : ℚ)) 0

/-- Fatal I/O or codec failures that the probe code can hit. -/
inductive IoError
  | writeFail
  | openFail
  | decodeFail
  | metadataFail
deriving DecidableEq

/-- Outcomes of the effectful calls made by find_gif_compression_ratio, in
program order: the save_gif write of the probe file, the File::open read-back,
the decode of the probe into frames, and the fs::metadata length query. -/
structure GifProbeEnv where
  saveResult : Except IoError Unit
  openResult : Except IoError Unit
  framesResult : Except IoError (List Frame)
  probeLen : Except IoError ℕ

/-- From src/main.rs, find_gif_compression_ratio: writes the probe file with
save_gif, reopens and decodes it, and divides the on-disk length by
get_gif_bytes of the decoded frames.  Line 178 of the source discards the
Result returned by save_gif (there is no question-mark operator on that call),
which this embedding mirrors by ignoring saveResult; the remaining calls
propagate their errors with the question-mark operator. -/
def find_gif_compression_ratio_fn (env : GifProbeEnv) :
    Except IoError (ℚ × List Frame) :=
  let _ignoredSaveResult := env.saveResult
  match env.openResult with
  | Except.error e => Except.error e
  | Except.ok _ =>
    match env.framesResult with
    | Except.error e => Except.error e
    | Except.ok newFrames =>
      match env.probeLen with
      | Except.error e => Except.error e
      | Except.ok len => Except.ok ((len : ℚ) / get_gif_bytes newFrames, newFrames)

/-- Concrete probe environment in which the save_gif write of the probe file
fails while a stale probe file from an earlier run still opens and decodes. -/
def cenv7 : GifProbeEnv :=
  { saveResult := Except.error IoError.writeFail
    openResult := Except.ok ()
    framesResult := Except.ok [⟨2, 2⟩]
    probeLen := Except.ok 500 }

/-- Rust saturating cast from f64 to u32 (`as u32`): truncation toward zero,
clamped to the u32 range.  All scales cast in the program are nonnegative, so
truncation coincides with the floor. -/
def castU32 (q : ℚ) : ℕ := min (Int.toNat ⌊q⌋) 4294967295

/-- Modelled from the spec: the Resize Operator itself lives in the external
image crate and is not part of this repository; per spec sections 4.2 and 6
it is an opaque capability resize(frame, target_width, target_height, filter)
returning a frame with the requested dimensions. -/
def resizeFrame (f : Frame) (tw th : ℕ) : Frame :=
  let _sourceFrame := f
  { width := tw, height := th }

/-- From src/main.rs, resize_gif: maps every frame through resize with target
dimensions (w * scale) as u32 and (h * scale) as u32, each axis computed
independently of the other. -/
def resize_gif (images : List Frame) (w h scale : ℚ) : List Frame :=
  images.map fun f => resizeFrame f (castU32 (w * scale)) (castU32 (h * scale))

/-- The target dimensions computed at the single-image resize call sites of
find_largest_within_image (lines 209, 274 and 290 of src/main.rs). -/
def resizeDims (w h scale : ℚ) : ℕ × ℕ := (castU32 (w * scale), castU32 (h * scale))

/-- f64::MAX as an exact rational: (2 - 2^-52) * 2^1023. -/
def fMAX : ℚ := 2 ^ 1024 - 2 ^ 971

/-- Parameters of one search run, shared by find_largest_within_image and
find_largest_within_gif: the byte target, the byte threshold, the iteration
ceiling m, the measured size osize of the save of the original unit, the
compression ratio estimate, the measured size encSizeInit of the initial
scale-1.0 baseline save (produced from the round-tripped unit), the
deterministic measured size encSize s of the save of the original unit resized
at scale s, and the random draw rand k lo hi returned by the k-th call of
gen_range(lo..hi). -/
structure SearchParams where
  target : ℕ
  byteDiff : ℕ
  m : ℕ
  osize : ℕ
  ratioEst : ℚ
  encSizeInit : ℕ
  encSize : ℚ → ℕ
  rand : ℕ → ℚ → ℚ → ℚ

/-- The mutable state of the search loop: current scale, bracket (a, b),
iteration counter i, the Best-Known triple, and the per-iteration measured
values diff, diffRatioEst (diff_ratio in the source) and imgsize. -/
structure SearchState where
  scale : ℚ
  a : ℚ
  b : ℚ
  i : ℕ
  bestScale : ℚ
  bestDiff : ℚ
  bestSize : ℚ
  diff : ℚ
  diffRatioEst : ℚ
  imgsize : ℚ
deriving DecidableEq

/-- psize from the source: osize, raised to target when below it. -/
def psize (p : SearchParams) : ℚ :=
  if (p.osize : ℚ) < (p.target : ℚ) then (p.target : ℚ) else (p.osize : ℚ)

/-- The state as of line 229 of src/main.rs: scale 1.0, loop counter 0,
best_scale 1.0, best_diff f64::MAX, best_size = imgsize = psize, diff and
diff_ratio zeroed, and bracket (0, 1) widened to (1, target/osize * 1.05)
when the target exceeds the original size. -/
def initState (p : SearchParams) : SearchState :=
  { scale := 1
    a := if p.osize < p.target then 1 else 0
    b := if p.osize < p.target then (p.target : ℚ) / (p.osize : ℚ) * (21 / 20) else 1
    i := 0
    bestScale := 1
    bestDiff := fMAX
    bestSize := psize p
    diff := 0
    diffRatioEst := 0
    imgsize := psize p }

/-- The length fs::metadata(&save_name) reports at the head of an iteration:
the baseline save for iteration 0, and the save of the unit resized at the
current scale for every later iteration. -/
def curSize (p : SearchParams) (s : SearchState) : ℕ :=
  if s.i = 0 then p.encSizeInit else p.encSize s.scale

/-- diff = imgsize - target of the current iteration. -/
def mDiff (p : SearchParams) (s : SearchState) : ℚ :=
  (curSize p s : ℚ) - (p.target : ℚ)

/-- diff_ratio = imgsize * ratio / target of the current iteration. -/
def mDR (p : SearchParams) (s : SearchState) : ℚ :=
  (curSize p s : ℚ) * p.ratioEst / (p.target : ℚ)

/-- Lines 235 through 244 of the source: measure the current file size,
recompute diff and diff_ratio, and overwrite the Best-Known triple when this
diff is strictly negative and strictly smaller in magnitude than the best
diff seen so far. -/
def measureStep (p : SearchParams) (s : SearchState) : SearchState :=
  if |mDiff p s| < |s.bestDiff| ∧ mDiff p s < 0 then
    { s with
      imgsize := (curSize p s : ℚ)
      diff := mDiff p s
      diffRatioEst := mDR p s
      bestScale := s.scale
      bestDiff := mDiff p s
      bestSize := (curSize p s : ℚ) }
  else
    { s with
      imgsize := (curSize p s : ℚ)
      diff := mDiff p s
      diffRatioEst := mDR p s }

/-- Line 261: the raised lower bound a = scale - 1/(i+2) when the candidate is
under target, otherwise a is unchanged. -/
def narrowA (p : SearchParams) (s : SearchState) : ℚ :=
  if s.imgsize < (p.target : ℚ) then s.scale - 1 / ((s.i : ℚ) + 2) else s.a

/-- Line 263: the lowered upper bound b = scale + 1/(i+2) when the candidate is
at or over target, otherwise b is unchanged. -/
def narrowB (p : SearchParams) (s : SearchState) : ℚ :=
  if s.imgsize < (p.target : ℚ) then s.b else s.scale + 1 / ((s.i : ℚ) + 2)

/-- Lines 259 through 281: narrow the bracket, draw the next scale uniformly
from gen_range(a..b) (the diff_ratio conditional in the source has identical
branches, so exactly one draw happens), fall back to the previous scale when
the draw is negative, resize and save at the new scale, and increment i. -/
def advanceStep (p : SearchParams) (s : SearchState) : SearchState :=
  { s with
    a := narrowA p s
    b := narrowB p s
    scale :=
      if p.rand s.i (narrowA p s) (narrowB p s) < 0 then s.scale
      else p.rand s.i (narrowA p s) (narrowB p s)
    i := s.i + 1 }

/-- The bracket collapse predicate |1 - min(a,b)/max(a,b)| < 0.05. -/
def bracketCollapsed (a b : ℚ) : Bool :=
  decide (|1 - min a b / max a b| < (1 / 20 : ℚ))

/-- Line 246: the inner stopping check, i > m, or the bracket has collapsed,
or |diff| is inside the byte threshold. -/
def breakCond (p : SearchParams) (s : SearchState) : Bool :=
  decide (p.m < s.i) || bracketCollapsed s.a s.b ||
    decide (|s.diff| < (p.byteDiff : ℚ))

/-- Lines 231 through 234: the outer while condition, evaluated before every
iteration: |diff| > byte threshold, or diff_ratio differs from 1, or
diff_ratio exceeds 1, or i = 0, or the file on disk exceeds the target. -/
def whileCond (p : SearchParams) (s : SearchState) : Bool :=
  (decide (|s.diff| > (p.byteDiff : ℚ)) || decide (s.diffRatioEst ≠ 1) ||
      decide (s.diffRatioEst > 1)) ||
    decide (s.i = 0) || decide ((curSize p s : ℚ) > (p.target : ℚ))

/-- One measured candidate of a run: the iteration index, the scale and size
measured, the resulting diff, and, when the iteration went on to draw a new
scale, the gen_range bounds it drew from. -/
structure IterRecord where
  idx : ℕ
  scale : ℚ
  size : ℚ
  diff : ℚ
  drew : Option (ℚ × ℚ)
deriving DecidableEq

/-- The record of the iteration whose measurement produced state s. -/
def mkRecord (s : SearchState) (dr : Option (ℚ × ℚ)) : IterRecord :=
  { idx := s.i, scale := s.scale, size := s.imgsize, diff := s.diff, drew := dr }

/-- How the while loop ended: through the inner break on line 247, or because
the outer while condition evaluated to false. -/
inductive ExitKind
  | viaBreak
  | viaGuard
deriving DecidableEq

/-- The search loop as a fuel-indexed function.  Each pass first evaluates the
outer while condition; inside the body it measures and best-updates, then
either breaks out or narrows, redraws, resizes and recurses.  The returned
trace lists every iteration that measured a candidate, and the exit kind
records which of the two exits ended the loop.  The fuel m + 2 always
suffices (loopGo_isSome below). -/
def loopGo (p : SearchParams) : ℕ → SearchState → Option (SearchState × List IterRecord × ExitKind)
  | 0, _ => none
  | fuel + 1, s =>
    if whileCond p s then
      if breakCond p (measureStep p s) then
        some (measureStep p s, [mkRecord (measureStep p s) none], ExitKind.viaBreak)
      else
        (loopGo p fuel (advanceStep p (measureStep p s))).map fun out =>
          (out.1,
            mkRecord (measureStep p s)
                (some ((advanceStep p (measureStep p s)).a,
                  (advanceStep p (measureStep p s)).b)) ::
              out.2.1,
            out.2.2)
    else some (s, [], ExitKind.viaGuard)

/-- The completed run from the initial state, with fuel m + 2. -/
def runResult (p : SearchParams) : SearchState × List IterRecord × ExitKind :=
  (loopGo p (p.m + 2) (initState p)).getD (initState p, [], ExitKind.viaGuard)

/-- Loop state after the loop has ended. -/
def finalState (p : SearchParams) : SearchState := (runResult p).1

/-- The measured candidates of the run, in order. -/
def runTrace (p : SearchParams) : List IterRecord := (runResult p).2.1

/-- Which exit ended the run. -/
def exitKind (p : SearchParams) : ExitKind := (runResult p).2.2

/-- Size of the final output: the original unit re-resized at the Best-Known
scale and re-encoded (lines 289 through 294 of the source). -/
def finalOutputSize (p : SearchParams) : ℕ :=
  p.encSize (finalState p).bestScale

/-- Number of in-loop resize-and-encode cycles: the iterations that narrowed,
redrew and saved a new candidate. -/
def inLoopCycles (p : SearchParams) : ℕ :=
  (runTrace p).countP fun r => r.drew.isSome

/-- Total resize-and-encode cycles as counted by the ceiling claim: the
initial scale-1.0 baseline save, every in-loop candidate save, and the final
output save at the Best-Known scale. -/
def totalCycles (p : SearchParams) : ℕ := 1 + inLoopCycles p + 1

/-- Rust truncating cast from f64 to u64 for the nonnegative sizes fed to the
file-name match (saturation bound 2^64 - 1 included for faithfulness). -/
def ratTruncToNat (q : ℚ) : ℕ := min (Int.toNat ⌊q⌋) 18446744073709551615

/-- The divisor selected by the match on best_size in lines 296 through 319. -/
def unitDivisor (n : ℕ) : ℕ :=
  if 1000 ≤ n ∧ n ≤ 999999 then 1000
  else if 1000000 ≤ n ∧ n ≤ 999999999 then 1000000
  else if 1000000000 ≤ n ∧ n ≤ 999999999999 then 1000000000
  else if 1000000000000 ≤ n ∧ n ≤ 999999999999999 then 1000000000000
  else 1

/-- The unit suffix selected by the same match. -/
def datatypeStr (n : ℕ) : String :=
  if 1000 ≤ n ∧ n ≤ 999999 then "KB"
  else if 1000000 ≤ n ∧ n ≤ 999999999 then "MB"
  else if 1000000000 ≤ n ∧ n ≤ 999999999999 then "GB"
  else if 1000000000000 ≤ n ∧ n ≤ 999999999999999 then "TB"
  else "B"

/-- The number and unit embedded in the output file name, computed from the
best_size value as in lines 296 through 327. -/
def outputLabel (bestSize : ℚ) : ℕ × String :=
  (ratTruncToNat bestSize / unitDivisor (ratTruncToNat bestSize),
    datatypeStr (ratTruncToNat bestSize))

/-- Bracket invariant maintained between iterations: the bracket is proper and
the kept scale is nonnegative and inside it. -/
def BracketInv (s : SearchState) : Prop :=
  s.a < s.b ∧ 0 ≤ s.scale ∧ s.a ≤ s.scale ∧ s.scale ≤ s.b

/-- Best-Known invariant for the final-output claim: at iteration 0 the scale
is still 1, the best diff is either the f64::MAX sentinel or strictly
negative, and a strictly negative best diff certifies an under-target
Best-Known candidate whose size re-encodes identically. -/
def BestInv (p : SearchParams) (s : SearchState) : Prop :=
  (s.i = 0 → s.scale = 1) ∧
    (s.bestDiff = fMAX ∨ s.bestDiff < 0) ∧
    (s.bestDiff < 0 →
      (p.encSize s.bestScale : ℚ) = s.bestSize ∧ s.bestSize < (p.target : ℚ))

/-- Deterministic midpoint draw, a valid model of gen_range(lo..hi). -/
def midRand : ℕ → ℚ → ℚ → ℚ := fun _ lo hi => (lo + hi) / 2

/-- Counterexample run for the final-output claim: iteration 0 measures a
candidate whose size equals the target exactly (under the claim, a candidate
with size at most the target), the widened bracket already satisfies the
collapse predicate so the loop breaks at once, Best-Known keeps its initial
scale 1.0, and the final output is the over-target original. -/
def pC1 : SearchParams :=
  { target := 1001, byteDiff := 0, m := 8, osize := 1000, ratioEst := 1
    encSizeInit := 1001
    encSize := fun _ => 1200
    rand := fun _ _ _ => 0 }

/-- Witness run for the amended final-output claim: the baseline candidate is
strictly under target and inside the byte threshold, so the loop breaks at
iteration 0 with that candidate recorded as Best-Known. -/
def pW1 : SearchParams :=
  { target := 1000, byteDiff := 50, m := 8, osize := 1100, ratioEst := 1
    encSizeInit := 980
    encSize := fun _ => 980
    rand := fun _ _ _ => 0 }

/-- Counterexample run for the keeps-iterating claim: iteration 0 measures an
over-target candidate inside the byte threshold, and the inner break stops
the loop at iteration 0, far below the ceiling. -/
def pC2 : SearchParams :=
  { target := 1000, byteDiff := 50, m := 8, osize := 1030, ratioEst := 1
    encSizeInit := 1030
    encSize := fun _ => 1030
    rand := fun _ _ _ => 0 }

/-- Witness run for the amended guard claim: after one iteration diff_ratio is
exactly 1, |diff| equals the threshold, and the freshly saved candidate is
under target, so the outer while condition itself ends the loop. -/
def pW2 : SearchParams :=
  { target := 100, byteDiff := 20, m := 8, osize := 120, ratioEst := 5 / 6
    encSizeInit := 120
    encSize := fun s => if s = 1 then 120 else 95
    rand := fun _ _ _ => 3 / 4 }

/-- Counterexample run for the never-exits-on-iteration-0 claim: the baseline
diff is already inside the byte threshold, so the inner break fires during
iteration 0. -/
def pC3 : SearchParams :=
  { target := 1000, byteDiff := 100, m := 8, osize := 1000, ratioEst := 1
    encSizeInit := 950
    encSize := fun _ => 950
    rand := fun _ _ _ => 0 }

/-- Counterexample run for the ceiling claim: every candidate stays over
target, no stopping predicate fires before the ceiling, and the run performs
m + 3 resize-and-encode cycles. -/
def pC4 : SearchParams :=
  { target := 1000, byteDiff := 0, m := 8, osize := 1100, ratioEst := 1
    encSizeInit := 1100
    encSize := fun _ => 1100
    rand := fun _ _ _ => 0 }

/-- Counterexample run for the Best-Known initialisation claim: osize 500 and
target 1000. -/
def pC5 : SearchParams :=
  { target := 1000, byteDiff := 0, m := 8, osize := 500, ratioEst := 1
    encSizeInit := 500
    encSize := fun _ => 500
    rand := fun _ _ _ => 0 }

/-- Witness run for the bracket claim: target above osize, so the widened
initial bracket is exercised. -/
def pW9 : SearchParams :=
  { target := 100, byteDiff := 0, m := 8, osize := 2, ratioEst := 1
    encSizeInit := 2
    encSize := fun _ => 2
    rand := midRand }

/-- Witness run for the no-best-update claim: every candidate measures 1500,
above the target 1000; the wide byte threshold stops the run at iteration 0. -/
def pW10 : SearchParams :=
  { target := 1000, byteDiff := 600, m := 8, osize := 1500, ratioEst := 1
    encSizeInit := 1500
    encSize := fun _ => 1500
    rand := fun _ _ _ => 0 }

@[simp]
theorem measureStep_i (p : SearchParams) (s : SearchState) : (measureStep p s).i = s.i := by
  unfold measureStep; split <;> rfl

@[simp]
theorem measureStep_scale (p : SearchParams) (s : SearchState) :
    (measureStep p s).scale = s.scale := by
  unfold measureStep; split <;> rfl

@[simp]
theorem measureStep_a (p : SearchParams) (s : SearchState) : (measureStep p s).a = s.a := by
  unfold measureStep; split <;> rfl

@[simp]
theorem measureStep_b (p : SearchParams) (s : SearchState) : (measureStep p s).b = s.b := by
  unfold measureStep; split <;> rfl

@[simp]
theorem measureStep_imgsize (p : SearchParams) (s : SearchState) :
    (measureStep p s).imgsize = (curSize p s : ℚ) := by
  unfold measureStep; split <;> rfl

@[simp]
theorem measureStep_diff (p : SearchParams) (s : SearchState) :
    (measureStep p s).diff = mDiff p s := by
  unfold measureStep; split <;> rfl

@[simp]
theorem advanceStep_i (p : SearchParams) (s : SearchState) :
    (advanceStep p s).i = s.i + 1 := rfl

@[simp]
theorem advanceStep_a (p : SearchParams) (s : SearchState) :
    (advanceStep p s).a = narrowA p s := rfl

@[simp]
theorem advanceStep_b (p : SearchParams) (s : SearchState) :
    (advanceStep p s).b = narrowB p s := rfl

@[simp]
theorem advanceStep_bestScale (p : SearchParams) (s : SearchState) :
    (advanceStep p s).bestScale = s.bestScale := rfl

@[simp]
theorem advanceStep_bestDiff (p : SearchParams) (s : SearchState) :
    (advanceStep p s).bestDiff = s.bestDiff := rfl

@[simp]
theorem advanceStep_bestSize (p : SearchParams) (s : SearchState) :
    (advanceStep p s).bestSize = s.bestSize := rfl

@[simp]
theorem mkRecord_size (s : SearchState) (dr : Option (ℚ × ℚ)) :
    (mkRecord s dr).size = s.imgsize := rfl

@[simp]
theorem mkRecord_drew (s : SearchState) (dr : Option (ℚ × ℚ)) :
    (mkRecord s dr).drew = dr := rfl

theorem psize_eq_max (p : SearchParams) : psize p = max (p.osize : ℚ) (p.target : ℚ) := by
  unfold psize
  rcases le_or_lt (p.target : ℚ) (p.osize : ℚ) with h | h
  · rw [if_neg (not_lt.mpr h), max_eq_left h]
  · rw [if_pos h, max_eq_right h.le]

theorem fMAX_pos : 0 < fMAX := by
  unfold fMAX
  have h : (2 : ℚ) ^ 971 < 2 ^ 1024 := by
    have h2 : (1 : ℚ) < 2 := one_lt_two
    exact pow_lt_pow_right₀ h2 (by norm_num)
  linarith

theorem lt_fMAX_of_le_two_pow (x : ℚ) (h : x ≤ 2 ^ 64) : x < fMAX := by
  unfold fMAX
  nlinarith [pow_lt_pow_right₀ (one_lt_two (α := ℚ)) (show 64 < 971 by norm_num),
    pow_lt_pow_right₀ (one_lt_two (α := ℚ)) (show 971 < 1024 by norm_num),
    pow_pos (show (0:ℚ) < 2 by norm_num) 971]

theorem breakCond_false_le (p : SearchParams) (s : SearchState)
    (hb : ¬ breakCond p s = true) : s.i ≤ p.m := by
  by_contra hgt
  rw [not_le] at hgt
  exact hb (by unfold breakCond; simp [hgt])

theorem loopGo_isSome (p : SearchParams) :
    ∀ fuel s, s.i ≤ p.m + 1 → p.m + 2 ≤ s.i + fuel → (loopGo p fuel s).isSome := by
  intro fuel
  induction fuel with
  | zero => intro s h1 h2; exfalso; omega
  | succ n ih =>
    intro s h1 h2
    rw [loopGo]
    by_cases hw : whileCond p s
    · rw [if_pos hw]
      by_cases hb : breakCond p (measureStep p s)
      · rw [if_pos hb]; rfl
      · rw [if_neg hb]
        have hle : s.i ≤ p.m := by
          have := breakCond_false_le p (measureStep p s) hb
          rwa [measureStep_i] at this
        have hs := ih (advanceStep p (measureStep p s))
          (by rw [advanceStep_i, measureStep_i]; omega)
          (by rw [advanceStep_i, measureStep_i]; omega)
        cases hx : loopGo p n (advanceStep p (measureStep p s)) with
        | none => rw [hx] at hs; simp at hs
        | some v => rfl
    · rw [if_neg hw]; rfl

theorem runResult_eq (p : SearchParams) :
    loopGo p (p.m + 2) (initState p) = some (runResult p) := by
  have h := loopGo_isSome p (p.m + 2) (initState p) (Nat.zero_le _) (by omega)
  cases hx : loopGo p (p.m + 2) (initState p) with
  | none => rw [hx] at h; simp at h
  | some v => unfold runResult; rw [hx]; rfl

theorem loopGo_viaGuard (p : SearchParams) :
    ∀ fuel s sf tr, loopGo p fuel s = some (sf, tr, ExitKind.viaGuard) →
      whileCond p sf = false := by
  intro fuel
  induction fuel with
  | zero => intro s sf tr h; exact absurd h (by simp [loopGo])
  | succ n ih =>
    intro s sf tr h
    rw [loopGo] at h
    by_cases hw : whileCond p s
    · rw [if_pos hw] at h
      by_cases hb : breakCond p (measureStep p s)
      · rw [if_pos hb] at h
        simp at h
      · rw [if_neg hb] at h
        rw [Option.map_eq_some'] at h
        obtain ⟨⟨o1, o2, o3⟩, hout, heq⟩ := h
        simp only [Prod.mk.injEq] at heq
        obtain ⟨h1, _, h3⟩ := heq
        subst h1; subst h3
        exact ih _ _ _ hout
    · rw [if_neg hw] at h
      simp only [Option.some.injEq, Prod.mk.injEq] at h
      obtain ⟨h1, _, _⟩ := h
      subst h1
      simp only [Bool.not_eq_true] at hw
      exact hw

theorem whileCond_init_true (p : SearchParams) : whileCond p (initState p) = true := by
  unfold whileCond
  have h : (initState p).diffRatioEst = 0 := rfl
  rw [h]
  have h2 : decide ((0 : ℚ) ≠ 1) = true := by norm_num
  rw [h2]
  simp

theorem midRand_spec : ∀ (k : ℕ) (lo hi : ℚ), lo < hi → lo ≤ midRand k lo hi ∧ midRand k lo hi < hi := by
  intro k lo hi h
  unfold midRand
  constructor <;> linarith

theorem run_break0 (p : SearchParams) (hb : breakCond p (measureStep p (initState p)) = true) :
    finalState p = measureStep p (initState p) ∧
      runTrace p = [mkRecord (measureStep p (initState p)) none] ∧
      exitKind p = ExitKind.viaBreak := by
  have hrun := runResult_eq p
  rw [show p.m + 2 = (p.m + 1) + 1 from rfl, loopGo, if_pos (whileCond_init_true p),
    if_pos hb] at hrun
  injection hrun with h
  have h1 : finalState p = (runResult p).1 := rfl
  have h2 : runTrace p = (runResult p).2.1 := rfl
  have h3 : exitKind p = (runResult p).2.2 := rfl
  rw [h1, h2, h3, ← h]
  exact ⟨rfl, rfl, rfl⟩

theorem run_guard1 (p : SearchParams)
    (hb : breakCond p (measureStep p (initState p)) = false)
    (hw2 : whileCond p (advanceStep p (measureStep p (initState p))) = false) :
    finalState p = advanceStep p (measureStep p (initState p)) ∧
      exitKind p = ExitKind.viaGuard := by
  have hrun := runResult_eq p
  rw [show p.m + 2 = (p.m + 1) + 1 from rfl, loopGo, if_pos (whileCond_init_true p),
    if_neg (by rw [hb]; exact Bool.false_ne_true)] at hrun
  rw [loopGo, if_neg (by rw [hw2]; exact Bool.false_ne_true), Option.map_some'] at hrun
  injection hrun with h
  have h1 : finalState p = (runResult p).1 := rfl
  have h3 : exitKind p = (runResult p).2.2 := rfl
  rw [h1, h3, ← h]
  exact ⟨rfl, rfl⟩

theorem loopGo_count (p : SearchParams) :
    ∀ fuel s sf tr ek, loopGo p fuel s = some (sf, tr, ek) → s.i ≤ p.m + 1 →
      (tr.countP fun r => r.drew.isSome) + s.i ≤ p.m + 1 := by
  intro fuel
  induction fuel with
  | zero => intro s sf tr ek h _; exact absurd h (by simp [loopGo])
  | succ n ih =>
    intro s sf tr ek h hi
    rw [loopGo] at h
    by_cases hw : whileCond p s
    · rw [if_pos hw] at h
      by_cases hb : breakCond p (measureStep p s)
      · rw [if_pos hb] at h
        simp only [Option.some.injEq, Prod.mk.injEq] at h
        obtain ⟨_, h2, _⟩ := h
        subst h2
        simp only [List.countP_cons, List.countP_nil, mkRecord_drew, Option.isSome_none]
        simp only [Bool.false_eq_true, if_false]
        omega
      · rw [if_neg hb] at h
        rw [Option.map_eq_some'] at h
        obtain ⟨⟨o1, o2, o3⟩, hout, heq⟩ := h
        simp only [Prod.mk.injEq] at heq
        obtain ⟨_, h2, _⟩ := heq
        subst h2
        have hle : s.i ≤ p.m := by
          have := breakCond_false_le p (measureStep p s) hb
          rwa [measureStep_i] at this
        have hstep := ih (advanceStep p (measureStep p s)) o1 o2 o3 hout
          (by rw [advanceStep_i, measureStep_i]; omega)
        rw [advanceStep_i, measureStep_i] at hstep
        simp only [List.countP_cons, mkRecord_drew, Option.isSome_some, if_true]
        omega
    · rw [if_neg hw] at h
      simp only [Option.some.injEq, Prod.mk.injEq] at h
      obtain ⟨_, h2, _⟩ := h
      subst h2
      simp only [List.countP_nil]
      omega

theorem measureStep_best_keep (p : SearchParams) (s : SearchState) (h : 0 ≤ mDiff p s) :
    (measureStep p s).bestScale = s.bestScale ∧ (measureStep p s).bestDiff = s.bestDiff ∧
      (measureStep p s).bestSize = s.bestSize := by
  unfold measureStep
  rw [if_neg (fun hc => absurd hc.2 (not_lt.mpr h))]
  exact ⟨rfl, rfl, rfl⟩

theorem loopGo_best_const (p : SearchParams) :
    ∀ fuel s sf tr ek, loopGo p fuel s = some (sf, tr, ek) →
      (∀ r ∈ tr, (p.target : ℚ) ≤ r.size) →
      sf.bestScale = s.bestScale ∧ sf.bestDiff = s.bestDiff ∧ sf.bestSize = s.bestSize := by
  intro fuel
  induction fuel with
  | zero => intro s sf tr ek h _; exact absurd h (by simp [loopGo])
  | succ n ih =>
    intro s sf tr ek h htr
    rw [loopGo] at h
    by_cases hw : whileCond p s
    · rw [if_pos hw] at h
      have hsize : (p.target : ℚ) ≤ (curSize p s : ℚ) → 0 ≤ mDiff p s := by
        intro hx; unfold mDiff; linarith
      by_cases hb : breakCond p (measureStep p s)
      · rw [if_pos hb] at h
        simp only [Option.some.injEq, Prod.mk.injEq] at h
        obtain ⟨h1, h2, _⟩ := h
        subst h1
        have hr : (p.target : ℚ) ≤ (curSize p s : ℚ) := by
          have := htr (mkRecord (measureStep p s) none) (by rw [← h2]; exact List.mem_singleton_self _)
          rwa [mkRecord_size, measureStep_imgsize] at this
        exact measureStep_best_keep p s (hsize hr)
      · rw [if_neg hb] at h
        rw [Option.map_eq_some'] at h
        obtain ⟨⟨o1, o2, o3⟩, hout, heq⟩ := h
        simp only [Prod.mk.injEq] at heq
        obtain ⟨h1, h2, _⟩ := heq
        subst h1
        have hr : (p.target : ℚ) ≤ (curSize p s : ℚ) := by
          have := htr (mkRecord (measureStep p s)
              (some ((advanceStep p (measureStep p s)).a, (advanceStep p (measureStep p s)).b)))
            (by rw [← h2]; exact List.mem_cons_self _ _)
          rwa [mkRecord_size, measureStep_imgsize] at this
        have htl : ∀ r ∈ o2, (p.target : ℚ) ≤ r.size := by
          intro r hr2
          exact htr r (by rw [← h2]; exact List.mem_cons_of_mem _ hr2)
        have hrec := ih (advanceStep p (measureStep p s)) o1 o2 o3 hout htl
        rw [advanceStep_bestScale, advanceStep_bestDiff, advanceStep_bestSize] at hrec
        have hms := measureStep_best_keep p s (hsize hr)
        exact ⟨hrec.1.trans hms.1, hrec.2.1.trans hms.2.1, hrec.2.2.trans hms.2.2⟩
    · rw [if_neg hw] at h
      simp only [Option.some.injEq, Prod.mk.injEq] at h
      obtain ⟨h1, _, _⟩ := h
      subst h1
      exact ⟨rfl, rfl, rfl⟩

theorem measureStep_inv (p : SearchParams) (hdet : p.encSizeInit = p.encSize 1)
    (s : SearchState) (hinv : BestInv p s) : BestInv p (measureStep p s) := by
  obtain ⟨h0, hsent, hneg⟩ := hinv
  unfold measureStep
  by_cases hc : |mDiff p s| < |s.bestDiff| ∧ mDiff p s < 0
  · rw [if_pos hc]
    refine ⟨fun hi => h0 hi, Or.inr hc.2, fun _ => ⟨?_, ?_⟩⟩
    · show (p.encSize s.scale : ℚ) = (curSize p s : ℚ)
      unfold curSize
      by_cases hi : s.i = 0
      · rw [if_pos hi, h0 hi, ← hdet]
      · rw [if_neg hi]
    · show (curSize p s : ℚ) < (p.target : ℚ)
      have h2 := hc.2
      unfold mDiff at h2
      linarith
  · rw [if_neg hc]
    exact ⟨h0, hsent, hneg⟩

theorem measureStep_neg (p : SearchParams) (s : SearchState)
    (ht : (p.target : ℚ) < fMAX) (hinv : BestInv p s)
    (hlt : (curSize p s : ℚ) < (p.target : ℚ)) : (measureStep p s).bestDiff < 0 := by
  have hd : mDiff p s < 0 := by unfold mDiff; linarith
  unfold measureStep
  by_cases hc : |mDiff p s| < |s.bestDiff| ∧ mDiff p s < 0
  · rw [if_pos hc]; exact hd
  · rw [if_neg hc]
    rcases hinv.2.1 with hs | hs
    · exfalso
      apply hc
      refine ⟨?_, hd⟩
      rw [hs, abs_of_pos fMAX_pos, abs_of_neg hd]
      have hc0 : (0 : ℚ) ≤ (curSize p s : ℚ) := Nat.cast_nonneg _
      unfold mDiff
      linarith
    · exact hs

theorem measureStep_neg_keep (p : SearchParams) (s : SearchState) (h : s.bestDiff < 0) :
    (measureStep p s).bestDiff < 0 := by
  unfold measureStep
  by_cases hc : |mDiff p s| < |s.bestDiff| ∧ mDiff p s < 0
  · rw [if_pos hc]; exact hc.2
  · rw [if_neg hc]; exact h

theorem advanceStep_inv (p : SearchParams) (s : SearchState) (hinv : BestInv p s) :
    BestInv p (advanceStep p s) := by
  refine ⟨fun hi => absurd hi (Nat.succ_ne_zero s.i), hinv.2.1, hinv.2.2⟩

theorem loopGo_mono_neg (p : SearchParams) :
    ∀ fuel s sf tr ek, loopGo p fuel s = some (sf, tr, ek) → s.bestDiff < 0 →
      sf.bestDiff < 0 := by
  intro fuel
  induction fuel with
  | zero => intro s sf tr ek h _; exact absurd h (by simp [loopGo])
  | succ n ih =>
    intro s sf tr ek h hneg
    rw [loopGo] at h
    by_cases hw : whileCond p s
    · rw [if_pos hw] at h
      by_cases hb : breakCond p (measureStep p s)
      · rw [if_pos hb] at h
        simp only [Option.some.injEq, Prod.mk.injEq] at h
        obtain ⟨h1, _, _⟩ := h
        subst h1
        exact measureStep_neg_keep p s hneg
      · rw [if_neg hb] at h
        rw [Option.map_eq_some'] at h
        obtain ⟨⟨o1, o2, o3⟩, hout, heq⟩ := h
        simp only [Prod.mk.injEq] at heq
        obtain ⟨h1, _, _⟩ := heq
        subst h1
        exact ih _ _ _ _ hout (measureStep_neg_keep p s hneg)
    · rw [if_neg hw] at h
      simp only [Option.some.injEq, Prod.mk.injEq] at h
      obtain ⟨h1, _, _⟩ := h
      subst h1
      exact hneg

theorem loopGo_BestInv (p : SearchParams) (hdet : p.encSizeInit = p.encSize 1) :
    ∀ fuel s sf tr ek, loopGo p fuel s = some (sf, tr, ek) → BestInv p s →
      BestInv p sf := by
  intro fuel
  induction fuel with
  | zero => intro s sf tr ek h _; exact absurd h (by simp [loopGo])
  | succ n ih =>
    intro s sf tr ek h hinv
    rw [loopGo] at h
    by_cases hw : whileCond p s
    · rw [if_pos hw] at h
      by_cases hb : breakCond p (measureStep p s)
      · rw [if_pos hb] at h
        simp only [Option.some.injEq, Prod.mk.injEq] at h
        obtain ⟨h1, _, _⟩ := h
        subst h1
        exact measureStep_inv p hdet s hinv
      · rw [if_neg hb] at h
        rw [Option.map_eq_some'] at h
        obtain ⟨⟨o1, o2, o3⟩, hout, heq⟩ := h
        simp only [Prod.mk.injEq] at heq
        obtain ⟨h1, _, _⟩ := heq
        subst h1
        exact ih _ _ _ _ hout (advanceStep_inv p _ (measureStep_inv p hdet s hinv))
    · rw [if_neg hw] at h
      simp only [Option.some.injEq, Prod.mk.injEq] at h
      obtain ⟨h1, _, _⟩ := h
      subst h1
      exact hinv

theorem loopGo_hit (p : SearchParams) (hdet : p.encSizeInit = p.encSize 1)
    (ht : (p.target : ℚ) < fMAX) :
    ∀ fuel s sf tr ek, loopGo p fuel s = some (sf, tr, ek) → BestInv p s →
      (∃ r ∈ tr, r.size < (p.target : ℚ)) → sf.bestDiff < 0 := by
  intro fuel
  induction fuel with
  | zero => intro s sf tr ek h _ _; exact absurd h (by simp [loopGo])
  | succ n ih =>
    intro s sf tr ek h hinv hex
    rw [loopGo] at h
    by_cases hw : whileCond p s
    · rw [if_pos hw] at h
      by_cases hb : breakCond p (measureStep p s)
      · rw [if_pos hb] at h
        simp only [Option.some.injEq, Prod.mk.injEq] at h
        obtain ⟨h1, h2, _⟩ := h
        subst h1
        obtain ⟨r, hmem, hrlt⟩ := hex
        rw [← h2, List.mem_singleton] at hmem
        subst hmem
        rw [mkRecord_size, measureStep_imgsize] at hrlt
        exact measureStep_neg p s ht hinv hrlt
      · rw [if_neg hb] at h
        rw [Option.map_eq_some'] at h
        obtain ⟨⟨o1, o2, o3⟩, hout, heq⟩ := h
        simp only [Prod.mk.injEq] at heq
        obtain ⟨h1, h2, _⟩ := heq
        subst h1
        obtain ⟨r, hmem, hrlt⟩ := hex
        rw [← h2, List.mem_cons] at hmem
        rcases hmem with hhead | htail
        · subst hhead
          rw [mkRecord_size, measureStep_imgsize] at hrlt
          have hneg : (measureStep p s).bestDiff < 0 := measureStep_neg p s ht hinv hrlt
          exact loopGo_mono_neg p n _ _ _ _ hout hneg
        · exact ih _ _ _ _ hout (advanceStep_inv p _ (measureStep_inv p hdet s hinv))
            ⟨r, htail, hrlt⟩
    · rw [if_neg hw] at h
      simp only [Option.some.injEq, Prod.mk.injEq] at h
      obtain ⟨_, h2, _⟩ := h
      obtain ⟨r, hmem, _⟩ := hex
      rw [← h2] at hmem
      exact absurd hmem (List.not_mem_nil r)

theorem initState_BracketInv (p : SearchParams) (ho : 0 < p.osize) :
    BracketInv (initState p) := by
  unfold BracketInv
  have ha : (initState p).a = if p.osize < p.target then (1 : ℚ) else 0 := rfl
  have hbv : (initState p).b =
      if p.osize < p.target then (p.target : ℚ) / (p.osize : ℚ) * (21 / 20) else 1 := rfl
  have hsv : (initState p).scale = 1 := rfl
  rw [ha, hbv, hsv]
  by_cases h : p.osize < p.target
  · rw [if_pos h, if_pos h]
    have h0 : (0 : ℚ) < (p.osize : ℚ) := by exact_mod_cast ho
    have h1 : (p.osize : ℚ) < (p.target : ℚ) := by exact_mod_cast h
    have h2 : 1 < (p.target : ℚ) / (p.osize : ℚ) := (one_lt_div h0).mpr h1
    refine ⟨by nlinarith, by norm_num, le_refl 1, by nlinarith⟩
  · rw [if_neg h, if_neg h]
    norm_num

theorem narrow_lt (p : SearchParams) (s : SearchState) (hinv : BracketInv s) :
    narrowA p s < narrowB p s := by
  obtain ⟨hab, h0, has, hsb⟩ := hinv
  have hstep : (0 : ℚ) < 1 / ((s.i : ℚ) + 2) := by positivity
  unfold narrowA narrowB
  by_cases h : s.imgsize < (p.target : ℚ)
  · rw [if_pos h, if_pos h]; linarith
  · rw [if_neg h, if_neg h]; linarith

theorem measureStep_BracketInv (p : SearchParams) (s : SearchState) (hinv : BracketInv s) :
    BracketInv (measureStep p s) := by
  unfold BracketInv
  rw [measureStep_a, measureStep_b, measureStep_scale]
  exact hinv

theorem advanceStep_BracketInv (p : SearchParams) (s : SearchState)
    (hr : ∀ (k : ℕ) (lo hi : ℚ), lo < hi → lo ≤ p.rand k lo hi ∧ p.rand k lo hi < hi)
    (hinv : BracketInv s) : BracketInv (advanceStep p s) := by
  obtain ⟨hab, h0, has, hsb⟩ := hinv
  have hlt := narrow_lt p s ⟨hab, h0, has, hsb⟩
  have hd := hr s.i (narrowA p s) (narrowB p s) hlt
  have hstep : (0 : ℚ) < 1 / ((s.i : ℚ) + 2) := by positivity
  have haA : narrowA p s ≤ s.scale ∨ narrowA p s = s.a := by
    unfold narrowA
    by_cases h : s.imgsize < (p.target : ℚ)
    · rw [if_pos h]; left; linarith
    · rw [if_neg h]; right; rfl
  have hbB : s.scale ≤ narrowB p s := by
    unfold narrowB
    by_cases h : s.imgsize < (p.target : ℚ)
    · rw [if_pos h]; exact hsb
    · rw [if_neg h]; linarith
  unfold BracketInv
  have h1 : (advanceStep p s).a = narrowA p s := rfl
  have h2 : (advanceStep p s).b = narrowB p s := rfl
  have h3 : (advanceStep p s).scale =
      if p.rand s.i (narrowA p s) (narrowB p s) < 0 then s.scale
      else p.rand s.i (narrowA p s) (narrowB p s) := rfl
  rw [h1, h2, h3]
  by_cases hneg : p.rand s.i (narrowA p s) (narrowB p s) < 0
  · rw [if_pos hneg]
    refine ⟨hlt, h0, ?_, hbB⟩
    rcases haA with hx | hx
    · exact hx
    · rw [hx]; exact has
  · rw [if_neg hneg]
    exact ⟨hlt, not_lt.mp hneg, hd.1, hd.2.le⟩

theorem loopGo_drew (p : SearchParams)
    (hr : ∀ (k : ℕ) (lo hi : ℚ), lo < hi → lo ≤ p.rand k lo hi ∧ p.rand k lo hi < hi) :
    ∀ fuel s sf tr ek, loopGo p fuel s = some (sf, tr, ek) → BracketInv s →
      ∀ r ∈ tr, ∀ lo hi, r.drew = some (lo, hi) → lo < hi := by
  intro fuel
  induction fuel with
  | zero => intro s sf tr ek h _; exact absurd h (by simp [loopGo])
  | succ n ih =>
    intro s sf tr ek h hinv
    rw [loopGo] at h
    by_cases hw : whileCond p s
    · rw [if_pos hw] at h
      by_cases hb : breakCond p (measureStep p s)
      · rw [if_pos hb] at h
        simp only [Option.some.injEq, Prod.mk.injEq] at h
        obtain ⟨_, h2, _⟩ := h
        intro r hmem lo hi heq
        rw [← h2, List.mem_singleton] at hmem
        subst hmem
        rw [mkRecord_drew] at heq
        exact absurd heq (Option.noConfusion)
      · rw [if_neg hb] at h
        rw [Option.map_eq_some'] at h
        obtain ⟨⟨o1, o2, o3⟩, hout, heq⟩ := h
        simp only [Prod.mk.injEq] at heq
        obtain ⟨_, h2, _⟩ := heq
        have hinv1 : BracketInv (measureStep p s) := measureStep_BracketInv p s hinv
        intro r hmem lo hi hreq
        rw [← h2, List.mem_cons] at hmem
        rcases hmem with hhead | htail
        · subst hhead
          rw [mkRecord_drew, Option.some.injEq, Prod.mk.injEq] at hreq
          obtain ⟨hlo, hhi⟩ := hreq
          rw [advanceStep_a] at hlo
          rw [advanceStep_b] at hhi
          rw [← hlo, ← hhi]
          exact narrow_lt p (measureStep p s) hinv1
        · exact ih _ _ _ _ hout (advanceStep_BracketInv p _ hr hinv1) r htail lo hi hreq
    · rw [if_neg hw] at h
      simp only [Option.some.injEq, Prod.mk.injEq] at h
      obtain ⟨_, h2, _⟩ := h
      intro r hmem lo hi _
      rw [← h2] at hmem
      exact absurd hmem (List.not_mem_nil r)

@[simp]
theorem advanceStep_diff (p : SearchParams) (s : SearchState) :
    (advanceStep p s).diff = s.diff := rfl

theorem collapsed_zero (b : ℚ) (h : 0 < b) : bracketCollapsed 0 b = false := by
  unfold bracketCollapsed
  rw [min_eq_left h.le, max_eq_right h.le, zero_div]
  norm_num

theorem loopGo_exact (p : SearchParams)
    (hover : ∀ q : ℚ, (p.target : ℚ) < (p.encSize q : ℚ))
    (hover0 : (p.target : ℚ) < (p.encSizeInit : ℚ))
    (hbd : p.byteDiff = 0)
    (hrand : ∀ (k : ℕ) (lo hi : ℚ), p.rand k lo hi = 0) :
    ∀ fuel s sf tr ek, loopGo p fuel s = some (sf, tr, ek) →
      s.i + fuel = p.m + 2 → s.a = 0 → 0 ≤ s.scale → 0 < s.b →
      whileCond p s = true →
      (tr.countP fun r => r.drew.isSome) = fuel - 1 := by
  have hover2 : ∀ s : SearchState, (p.target : ℚ) < (curSize p s : ℚ) := by
    intro s
    unfold curSize
    split
    · exact hover0
    · exact hover _
  intro fuel
  induction fuel with
  | zero => intro s sf tr ek h _ _ _ _ _; exact absurd h (by simp [loopGo])
  | succ n ih =>
    intro s sf tr ek h hfuel ha hscale hb0 hwc
    rw [loopGo, if_pos hwc] at h
    have hd : 0 < mDiff p s := by
      unfold mDiff
      have := hover2 s
      linarith
    by_cases hn : n = 0
    · subst hn
      have hib : p.m < (measureStep p s).i := by rw [measureStep_i]; omega
      have hb : breakCond p (measureStep p s) = true := by
        unfold breakCond
        rw [decide_eq_true hib]
        simp
      rw [if_pos hb] at h
      simp only [Option.some.injEq, Prod.mk.injEq] at h
      obtain ⟨_, h2, _⟩ := h
      rw [← h2]
      simp [mkRecord_drew]
    · have hile : ¬ p.m < (measureStep p s).i := by rw [measureStep_i]; omega
      have himg : ¬ (measureStep p s).imgsize < (p.target : ℚ) := by
        rw [measureStep_imgsize]
        exact not_lt.mpr (hover2 s).le
      have hbrk : breakCond p (measureStep p s) = false := by
        unfold breakCond
        rw [measureStep_a, measureStep_b, measureStep_diff, ha,
          collapsed_zero s.b hb0, decide_eq_false hile, hbd]
        have habs : decide (|mDiff p s| < ((0 : ℕ) : ℚ)) = false := by
          rw [decide_eq_false_iff_not, Nat.cast_zero]
          exact not_lt.mpr (abs_nonneg _)
        rw [habs]
        rfl
      rw [if_neg (by rw [hbrk]; exact Bool.false_ne_true)] at h
      rw [Option.map_eq_some'] at h
      obtain ⟨⟨o1, o2, o3⟩, hout, heq⟩ := h
      simp only [Prod.mk.injEq] at heq
      obtain ⟨_, h2, _⟩ := heq
      have hA : narrowA p (measureStep p s) = 0 := by
        unfold narrowA
        rw [if_neg himg, measureStep_a, ha]
      have hB : 0 < narrowB p (measureStep p s) := by
        unfold narrowB
        rw [if_neg himg, measureStep_scale, measureStep_i]
        have hstep : (0 : ℚ) < 1 / ((s.i : ℚ) + 2) := by positivity
        linarith
      have hS : (advanceStep p (measureStep p s)).scale = 0 := by
        have h3 : (advanceStep p (measureStep p s)).scale =
            if p.rand (measureStep p s).i (narrowA p (measureStep p s))
                (narrowB p (measureStep p s)) < 0 then (measureStep p s).scale
            else p.rand (measureStep p s).i (narrowA p (measureStep p s))
                (narrowB p (measureStep p s)) := rfl
        rw [h3, hrand]
        norm_num
      have hwc2 : whileCond p (advanceStep p (measureStep p s)) = true := by
        unfold whileCond
        have hdf : (advanceStep p (measureStep p s)).diff = mDiff p s := by
          rw [advanceStep_diff, measureStep_diff]
        have habs : decide
            (|(advanceStep p (measureStep p s)).diff| > ((p.byteDiff : ℕ) : ℚ)) = true := by
          rw [decide_eq_true_iff, hdf, hbd, Nat.cast_zero]
          exact abs_pos.mpr (ne_of_gt hd)
        rw [habs]
        simp
      have hrec := ih (advanceStep p (measureStep p s)) o1 o2 o3 hout
        (by rw [advanceStep_i, measureStep_i]; omega)
        (by rw [advanceStep_a]; exact hA)
        (by rw [hS])
        (by rw [advanceStep_b]; exact hB)
        hwc2
      rw [← h2, List.countP_cons]
      simp only [mkRecord_drew, Option.isSome_some, if_true]
      omega

theorem foldl_add_shift (c : Frame → ℚ) :
    ∀ (fs : List Frame) (t : ℚ),
      fs.foldl (fun acc f => acc + c f) t = t + fs.foldl (fun acc f => acc + c f) 0 := by
  intro fs
  induction fs with
  | nil => intro t; simp
  | cons f fs ih =>
    intro t
    simp only [List.foldl_cons]
    rw [ih (t + c f), ih (0 + c f)]
    ring

/-- C5 counterexample: with osize 500 and target 1000, the initial Best-Known
best size is psize = 1000, not the unscaled candidate size osize = 500, and
the initial best difference is the sentinel f64::MAX, not
osize - target = -500.  This refutes the claim that Best-Known is initialised
to the unscaled candidate measurement. -/
theorem c5_counterexample :
    (initState pC5).bestSize = 1000 ∧ (pC5.osize : ℚ) = 500 ∧
      (initState pC5).bestDiff = fMAX ∧ fMAX ≠ (pC5.osize : ℚ) - (pC5.target : ℚ) ∧
      (1000 : ℚ) ≠ 500 := by
  refine ⟨?_, by norm_num [pC5], rfl, ?_, by norm_num⟩
  · show psize pC5 = 1000
    norm_num [psize, pC5]
  · have h1 : (pC5.osize : ℚ) - (pC5.target : ℚ) = -500 := by norm_num [pC5]
    rw [h1]
    exact (lt_trans (by norm_num) fMAX_pos).ne'

/-- C5 (amended): in the Init state, Best-Known is best scale 1.0, best size
psize = max(osize, target), and best difference f64::MAX (a sentinel that any
strictly-under-target candidate replaces); it is not the measured unscaled
candidate triple. -/
theorem c5_init_best (p : SearchParams) :
    (initState p).bestScale = 1 ∧
      (initState p).bestSize = max (p.osize : ℚ) (p.target : ℚ) ∧
      (initState p).bestDiff = fMAX := by
  refine ⟨rfl, ?_, rfl⟩
  show psize p = _
  exact psize_eq_max p

/-- C6 counterexample: for a single 1 by 1 frame the estimator denominator
computed by get_gif_bytes is 3 bytes (to_rgb8), not the 4 bytes (RGBA) the
claim states. -/
theorem c6_counterexample :
    get_gif_bytes [⟨1, 1⟩] = 3 ∧ specRawBytes [⟨1, 1⟩] = 4 ∧ (3 : ℚ) ≠ 4 := by
  refine ⟨?_, ?_, by norm_num⟩
  · norm_num [get_gif_bytes, toRgb8Len]
  · norm_num [specRawBytes, toRgba8Len]

/-- C6 (amended): the ratio denominator of the frame-sequence Compression
Estimator is the sum over all frames of the to_rgb8 byte length, 3 bytes per
pixel (RGB), which is exactly three quarters of the RGBA total the spec
describes. -/
theorem c6_rgb_denominator (frames : List Frame) :
    4 * get_gif_bytes frames = 3 * specRawBytes frames := by
  induction frames with
  | nil => norm_num [get_gif_bytes, specRawBytes]
  | cons f fs ih =>
    unfold get_gif_bytes specRawBytes
    simp only [List.foldl_cons]
    rw [foldl_add_shift (fun f => (toRgb8Len f : ℚ)) fs (0 + (toRgb8Len f : ℚ)),
      foldl_add_shift (fun f => (toRgba8Len f : ℚ)) fs (0 + (toRgba8Len f : ℚ))]
    unfold get_gif_bytes specRawBytes at ih
    have hf : 4 * (toRgb8Len f : ℚ) = 3 * (toRgba8Len f : ℚ) := by
      unfold toRgb8Len toRgba8Len
      push_cast
      ring
    linarith

/-- C7: the claim says a failure to write the temporary probe file aborts the
whole search via an error return; but line 178 of the source discards the
Result of the save_gif writing the probe, so when the write fails while a
stale probe file still opens and decodes, find_gif_compression_ratio returns
Ok with the stale data instead of propagating the write error.  The theorem
evaluates the embedded function at exactly that failing environment. -/
theorem c7_probe_write_error_ignored :
    cenv7.saveResult = Except.error IoError.writeFail ∧
      find_gif_compression_ratio_fn cenv7 =
        Except.ok ((500 : ℚ) / get_gif_bytes [⟨2, 2⟩], [⟨2, 2⟩]) ∧
      (500 : ℚ) / get_gif_bytes [⟨2, 2⟩] = 125 / 3 := by
  refine ⟨rfl, rfl, ?_⟩
  have h : get_gif_bytes [⟨2, 2⟩] = 12 := by norm_num [get_gif_bytes, toRgb8Len]
  rw [h]
  norm_num

/-- C8: every resize call of the program passes target dimensions
floor(original_width * scale) and floor(original_height * scale), each axis
computed independently of the other (the u32 cast truncates toward zero and
the scales used are nonnegative, so truncation is the floor; the hypotheses
exclude the saturating branch of the cast).  The output frames of resize_gif
carry exactly these dimensions. -/
theorem c8_resize_floor_dims (images : List Frame) (w h : ℕ) (s : ℚ)
    (hw : ⌊(w : ℚ) * s⌋ < 4294967296) (hh : ⌊(h : ℚ) * s⌋ < 4294967296) :
    (∀ f ∈ resize_gif images (w : ℚ) (h : ℚ) s,
        f.width = Int.toNat ⌊(w : ℚ) * s⌋ ∧ f.height = Int.toNat ⌊(h : ℚ) * s⌋) ∧
      resizeDims (w : ℚ) (h : ℚ) s = (Int.toNat ⌊(w : ℚ) * s⌋, Int.toNat ⌊(h : ℚ) * s⌋) := by
  have hcw : castU32 ((w : ℚ) * s) = Int.toNat ⌊(w : ℚ) * s⌋ := by
    unfold castU32
    have hle : Int.toNat ⌊(w : ℚ) * s⌋ ≤ 4294967295 := by omega
    exact min_eq_left hle
  have hch : castU32 ((h : ℚ) * s) = Int.toNat ⌊(h : ℚ) * s⌋ := by
    unfold castU32
    have hle : Int.toNat ⌊(h : ℚ) * s⌋ ≤ 4294967295 := by omega
    exact min_eq_left hle
  constructor
  · intro f hf
    unfold resize_gif at hf
    rw [List.mem_map] at hf
    obtain ⟨g, _, hg⟩ := hf
    rw [← hg]
    exact ⟨hcw, hch⟩
  · unfold resizeDims
    rw [hcw, hch]

/-- C8 witness: a 10 by 3 frame resized at scale one half comes out as 5 by 1,
the per-axis floors. -/
theorem c8_resize_floor_dims_witness :
    (⌊((10 : ℕ) : ℚ) * (1 / 2)⌋ < 4294967296 ∧ ⌊((3 : ℕ) : ℚ) * (1 / 2)⌋ < 4294967296) ∧
      (∀ f ∈ resize_gif [⟨10, 3⟩] ((10 : ℕ) : ℚ) ((3 : ℕ) : ℚ) (1 / 2),
          f.width = Int.toNat ⌊((10 : ℕ) : ℚ) * (1 / 2)⌋ ∧
            f.height = Int.toNat ⌊((3 : ℕ) : ℚ) * (1 / 2)⌋) ∧
        resizeDims ((10 : ℕ) : ℚ) ((3 : ℕ) : ℚ) (1 / 2) =
          (Int.toNat ⌊((10 : ℕ) : ℚ) * (1 / 2)⌋, Int.toNat ⌊((3 : ℕ) : ℚ) * (1 / 2)⌋) :=
  ⟨⟨by norm_num, by norm_num⟩,
    c8_resize_floor_dims [⟨10, 3⟩] 10 3 (1 / 2) (by norm_num) (by norm_num)⟩

/-- C1 counterexample: in the run pC1 one measured candidate has size equal to
the target (so some candidate produced size at most target), yet the final
output written at the Best-Known scale measures 1200, above the target 1001:
the best update requires a strictly negative difference, so the boundary
candidate never becomes Best-Known. -/
theorem c1_counterexample :
    (∃ r ∈ runTrace pC1, r.size ≤ (pC1.target : ℚ)) ∧ pC1.target < finalOutputSize pC1 := by
  have ha : (initState pC1).a = 1 := by norm_num [initState, pC1]
  have hbv : (initState pC1).b = 21021 / 20000 := by norm_num [initState, pC1]
  have hcol : bracketCollapsed 1 (21021 / 20000) = true := by
    unfold bracketCollapsed
    rw [min_eq_left (by norm_num), max_eq_right (by norm_num), decide_eq_true_iff,
      abs_of_nonneg (by norm_num)]
    norm_num
  have hb : breakCond pC1 (measureStep pC1 (initState pC1)) = true := by
    unfold breakCond
    rw [measureStep_a, measureStep_b, ha, hbv, hcol]
    simp
  obtain ⟨hfs, htr, hek⟩ := run_break0 pC1 hb
  constructor
  · refine ⟨mkRecord (measureStep pC1 (initState pC1)) none, ?_, ?_⟩
    · rw [htr]; exact List.mem_singleton_self _
    · rw [mkRecord_size, measureStep_imgsize]
      norm_num [curSize, initState, pC1]
  · have hout : finalOutputSize pC1 = 1200 := by
      unfold finalOutputSize
      norm_num [pC1]
    rw [hout]
    norm_num [pC1]

/-- C1 (amended): if any measured candidate of the run produced an encoded
size strictly below the target, then the final output written at the
Best-Known scale has size at most the target.  The two amendments forced by
the code: the claimed boundary case size = target does not update Best-Known
(the update requires a strictly negative difference, see the counterexample),
and re-encoding at the Best-Known scale must reproduce the measured size when
Best-Known is the iteration-0 baseline, whose file came from the
round-tripped unit rather than the original (hypothesis hdet; automatic in
the GIF path); the target, a u64, is below f64::MAX. -/
theorem c1_final_within_target (p : SearchParams)
    (hdet : p.encSizeInit = p.encSize 1)
    (ht : (p.target : ℚ) < fMAX)
    (hex : ∃ r ∈ runTrace p, r.size < (p.target : ℚ)) :
    finalOutputSize p ≤ p.target := by
  have hrun := runResult_eq p
  have hinv0 : BestInv p (initState p) := by
    refine ⟨fun _ => rfl, Or.inl rfl, fun hneg => absurd hneg ?_⟩
    show ¬ (initState p).bestDiff < 0
    have hbd : (initState p).bestDiff = fMAX := rfl
    rw [hbd]
    exact not_lt.mpr fMAX_pos.le
  have hneg := loopGo_hit p hdet ht (p.m + 2) (initState p) (finalState p) (runTrace p)
    (exitKind p) hrun hinv0 hex
  have hinvf := loopGo_BestInv p hdet (p.m + 2) (initState p) (finalState p) (runTrace p)
    (exitKind p) hrun hinv0
  obtain ⟨heq, hlt⟩ := hinvf.2.2 hneg
  have hq : (p.encSize (finalState p).bestScale : ℚ) < (p.target : ℚ) := by
    rw [heq]; exact hlt
  have hn : p.encSize (finalState p).bestScale ≤ p.target := by exact_mod_cast hq.le
  exact hn

/-- C1 witness: the run pW1 measures its baseline candidate at 980, strictly
under the target 1000, and the final output size 980 stays within the
target. -/
theorem c1_final_within_target_witness :
    pW1.encSizeInit = pW1.encSize 1 ∧ (pW1.target : ℚ) < fMAX ∧
      (∃ r ∈ runTrace pW1, r.size < (pW1.target : ℚ)) ∧
      finalOutputSize pW1 ≤ pW1.target := by
  have hmd : mDiff pW1 (initState pW1) = -20 := by
    norm_num [mDiff, curSize, initState, pW1]
  have hb : breakCond pW1 (measureStep pW1 (initState pW1)) = true := by
    unfold breakCond
    rw [measureStep_diff, hmd]
    have habs : decide (|(-20 : ℚ)| < ((pW1.byteDiff : ℕ) : ℚ)) = true := by
      rw [decide_eq_true_iff]
      norm_num [pW1]
    rw [habs]
    simp
  obtain ⟨hfs, htr, hek⟩ := run_break0 pW1 hb
  have hex : ∃ r ∈ runTrace pW1, r.size < (pW1.target : ℚ) := by
    refine ⟨mkRecord (measureStep pW1 (initState pW1)) none, ?_, ?_⟩
    · rw [htr]; exact List.mem_singleton_self _
    · rw [mkRecord_size, measureStep_imgsize]
      norm_num [curSize, initState, pW1]
  have hdet : pW1.encSizeInit = pW1.encSize 1 := rfl
  have ht : (pW1.target : ℚ) < fMAX := lt_fMAX_of_le_two_pow _ (by norm_num [pW1])
  exact ⟨hdet, ht, hex, c1_final_within_target pW1 hdet ht hex⟩

/-- C2 counterexample: in the run pC2 the current candidate measures 1030,
over the target 1000, the byte-tolerance predicate holds, and the loop stops
through the inner break at iteration 0, far below the ceiling 8.  This
refutes the claim that the loop keeps iterating whenever the current
candidate exceeds target and can only stop over-target at the ceiling. -/
theorem c2_counterexample :
    0 < (finalState pC2).diff ∧ (finalState pC2).i = 0 ∧ pC2.m = 8 ∧
      exitKind pC2 = ExitKind.viaBreak := by
  have hmd : mDiff pC2 (initState pC2) = 30 := by
    norm_num [mDiff, curSize, initState, pC2]
  have hb : breakCond pC2 (measureStep pC2 (initState pC2)) = true := by
    unfold breakCond
    rw [measureStep_diff, hmd]
    have habs : decide (|(30 : ℚ)| < ((pC2.byteDiff : ℕ) : ℚ)) = true := by
      rw [decide_eq_true_iff]
      norm_num [pC2]
    rw [habs]
    simp
  obtain ⟨hfs, htr, hek⟩ := run_break0 pC2 hb
  refine ⟨?_, ?_, rfl, hek⟩
  · rw [hfs, measureStep_diff, hmd]; norm_num
  · rw [hfs, measureStep_i]; rfl

/-- C2 (amended): the over-target forcing clause lives only in the outer
while condition, not in the inner break, so the loop CAN stop with an
over-target current candidate before the ceiling whenever bracket collapse or
the byte tolerance holds (see the counterexample); what the guard clause does
ensure is that an exit through the outer while condition itself never leaves
an over-target current candidate on disk. -/
theorem c2_guard_exit_under_target (p : SearchParams)
    (h : exitKind p = ExitKind.viaGuard) :
    (curSize p (finalState p) : ℚ) ≤ (p.target : ℚ) := by
  have hrun := runResult_eq p
  have hsplit : runResult p = (finalState p, runTrace p, exitKind p) := rfl
  rw [hsplit, h] at hrun
  have hwf := loopGo_viaGuard p (p.m + 2) (initState p) (finalState p) (runTrace p) hrun
  by_contra hgt
  rw [not_le] at hgt
  have htrue : whileCond p (finalState p) = true := by
    unfold whileCond
    rw [decide_eq_true hgt]
    simp
  rw [htrue] at hwf
  simp at hwf

/-- C2 witness: in the run pW2 the loop exits through the outer while
condition after one iteration, and the current candidate on disk measures 95,
within the target 100. -/
theorem c2_guard_exit_under_target_witness :
    exitKind pW2 = ExitKind.viaGuard ∧
      (curSize pW2 (finalState pW2) : ℚ) ≤ (pW2.target : ℚ) := by
  have ha : (initState pW2).a = 0 := by norm_num [initState, pW2]
  have hbv : (initState pW2).b = 1 := by norm_num [initState, pW2]
  have hi0 : (initState pW2).i = 0 := rfl
  have hmd : mDiff pW2 (initState pW2) = 20 := by
    norm_num [mDiff, curSize, initState, pW2]
  have hb : breakCond pW2 (measureStep pW2 (initState pW2)) = false := by
    unfold breakCond
    rw [measureStep_i, measureStep_a, measureStep_b, measureStep_diff, ha, hbv, hi0,
      collapsed_zero 1 one_pos, hmd]
    have h1 : decide (pW2.m < (0 : ℕ)) = false := by
      rw [decide_eq_false_iff_not]
      omega
    have h2 : decide (|(20 : ℚ)| < ((pW2.byteDiff : ℕ) : ℚ)) = false := by
      rw [decide_eq_false_iff_not]
      norm_num [pW2]
    rw [h1, h2]
    rfl
  have hdiff2 : (advanceStep pW2 (measureStep pW2 (initState pW2))).diff = 20 := by
    rw [advanceStep_diff, measureStep_diff, hmd]
  have hsc : (advanceStep pW2 (measureStep pW2 (initState pW2))).scale = 3 / 4 := by
    have h3 : (advanceStep pW2 (measureStep pW2 (initState pW2))).scale =
        if pW2.rand (measureStep pW2 (initState pW2)).i
            (narrowA pW2 (measureStep pW2 (initState pW2)))
            (narrowB pW2 (measureStep pW2 (initState pW2))) < 0 then
          (measureStep pW2 (initState pW2)).scale
        else
          pW2.rand (measureStep pW2 (initState pW2)).i
            (narrowA pW2 (measureStep pW2 (initState pW2)))
            (narrowB pW2 (measureStep pW2 (initState pW2))) := rfl
    rw [h3]
    norm_num [pW2]
  have hi2 : (advanceStep pW2 (measureStep pW2 (initState pW2))).i = 1 := by
    rw [advanceStep_i, measureStep_i, hi0]
  have hcs : (curSize pW2 (advanceStep pW2 (measureStep pW2 (initState pW2))) : ℚ) = 95 := by
    unfold curSize
    rw [if_neg (by rw [hi2]; omega), hsc]
    norm_num [pW2]
  have hdr2 : (advanceStep pW2 (measureStep pW2 (initState pW2))).diffRatioEst = 1 := by
    have h4 : (advanceStep pW2 (measureStep pW2 (initState pW2))).diffRatioEst =
        (measureStep pW2 (initState pW2)).diffRatioEst := rfl
    have h5 : (measureStep pW2 (initState pW2)).diffRatioEst = mDR pW2 (initState pW2) := by
      unfold measureStep
      split <;> rfl
    rw [h4, h5]
    norm_num [mDR, curSize, initState, pW2]
  have hw2 : whileCond pW2 (advanceStep pW2 (measureStep pW2 (initState pW2))) = false := by
    unfold whileCond
    rw [hdiff2, hdr2, hi2, hcs]
    have g1 : decide (|(20 : ℚ)| > ((pW2.byteDiff : ℕ) : ℚ)) = false := by
      rw [decide_eq_false_iff_not]
      norm_num [pW2]
    have g2 : decide ((1 : ℚ) ≠ 1) = false := by norm_num
    have g3 : decide ((1 : ℚ) > 1) = false := by norm_num
    have g4 : decide ((1 : ℕ) = 0) = false := by norm_num
    have g5 : decide ((95 : ℚ) > ((pW2.target : ℕ) : ℚ)) = false := by
      rw [decide_eq_false_iff_not]
      norm_num [pW2]
    rw [g1, g2, g3, g4, g5]
    rfl
  obtain ⟨hfs, hek⟩ := run_guard1 pW2 hb hw2
  refine ⟨hek, c2_guard_exit_under_target pW2 hek⟩

/-- C3 counterexample: in the run pC3 the baseline difference is already
inside the byte threshold, so the loop exits during iteration 0: the final
iteration counter is 0 and the single measured iteration performed no
bracket narrowing and no redraw (its drew field is none), refuting the claim
that at least one full iteration always runs before any exit. -/
theorem c3_counterexample :
    (finalState pC3).i = 0 ∧ (runTrace pC3).length = 1 ∧
      ((runTrace pC3).map fun r => r.drew) = [none] ∧
      exitKind pC3 = ExitKind.viaBreak := by
  have hmd : mDiff pC3 (initState pC3) = -50 := by
    norm_num [mDiff, curSize, initState, pC3]
  have hb : breakCond pC3 (measureStep pC3 (initState pC3)) = true := by
    unfold breakCond
    rw [measureStep_diff, hmd]
    have habs : decide (|(-50 : ℚ)| < ((pC3.byteDiff : ℕ) : ℚ)) = true := by
      rw [decide_eq_true_iff]
      norm_num [pC3]
    rw [habs]
    simp
  obtain ⟨hfs, htr, hek⟩ := run_break0 pC3 hb
  refine ⟨?_, ?_, ?_, hek⟩
  · rw [hfs, measureStep_i]; rfl
  · rw [htr]; rfl
  · rw [htr]; rfl

/-- C3 (amended): the loop body is always entered at least once, because the
initial diff_ratio of 0 makes the outer while condition true at entry (and
the i = 0 clause would force it regardless), so the initial candidate is
always measured; but the inner break may already fire during iteration 0, so
a full iteration with narrowing and redraw is not guaranteed. -/
theorem c3_body_always_entered (p : SearchParams) : 1 ≤ (runTrace p).length := by
  have hrun := runResult_eq p
  rw [show p.m + 2 = (p.m + 1) + 1 from rfl, loopGo, if_pos (whileCond_init_true p)] at hrun
  have h2 : runTrace p = (runResult p).2.1 := rfl
  by_cases hb : breakCond p (measureStep p (initState p))
  · rw [if_pos hb] at hrun
    injection hrun with h
    rw [h2, ← h]
    norm_num
  · rw [if_neg hb] at hrun
    rw [Option.map_eq_some'] at hrun
    obtain ⟨⟨o1, o2, o3⟩, _, heq⟩ := hrun
    rw [h2, ← heq]
    simp

/-- C4 counterexample: the run pC4 never meets any stopping predicate before
the ceiling m = 8, so by the claims own counting (baseline encode, in-loop
candidate encodes, final output encode) it performs 11 = m + 3 resize-and-
encode cycles, exceeding the claimed bound m + 1 = 9. -/
theorem c4_counterexample : totalCycles pC4 = 11 ∧ pC4.m + 1 = 9 := by
  have hover : ∀ q : ℚ, (pC4.target : ℚ) < (pC4.encSize q : ℚ) := by
    intro q
    norm_num [pC4]
  have hover0 : (pC4.target : ℚ) < (pC4.encSizeInit : ℚ) := by norm_num [pC4]
  have h := loopGo_exact pC4 hover hover0 rfl (fun _ _ _ => rfl) (pC4.m + 2)
    (initState pC4) (finalState pC4) (runTrace pC4) (exitKind pC4) (runResult_eq pC4)
    (by norm_num [initState]) (by norm_num [initState, pC4]) (by norm_num [initState])
    (by norm_num [initState, pC4]) (whileCond_init_true pC4)
  have h1 : totalCycles pC4 = 1 + (runTrace pC4).countP (fun r => r.drew.isSome) + 1 := rfl
  constructor
  · rw [h1, h]
    norm_num [pC4]
  · rfl

/-- C4 (amended): by the claims counting, the engine performs at most m + 3
resize-and-encode cycles: one baseline encode, at most m + 1 in-loop
candidate encodes (the break fires once the counter exceeds m), and one
final output encode; the claimed bound m + 1 is exceeded by exactly the two
bookend encodes (see the counterexample, which attains m + 3). -/
theorem c4_cycle_bound (p : SearchParams) :
    inLoopCycles p ≤ p.m + 1 ∧ totalCycles p ≤ p.m + 3 := by
  have h := loopGo_count p (p.m + 2) (initState p) (finalState p) (runTrace p)
    (exitKind p) (runResult_eq p) (Nat.zero_le _)
  have h0 : (initState p).i = 0 := rfl
  rw [h0] at h
  have h1 : inLoopCycles p = (runTrace p).countP fun r => r.drew.isSome := rfl
  have h2 : totalCycles p = 1 + inLoopCycles p + 1 := rfl
  constructor
  · rw [h1]; omega
  · rw [h2, h1]; omega

/-- C9: at every point where the loop draws the next scale from
gen_range(a..b), the bracket passed to the draw satisfies a < b strictly:
the initial bracket is proper in both the widened and the unwidened case,
and every narrowing step preserves a proper bracket around the kept
nonnegative scale, so the uniform draw ranges over a nonempty interval and
the gen_range call cannot hit its empty-range panic. -/
theorem c9_bracket_nonempty (p : SearchParams) (ho : 0 < p.osize)
    (hr : ∀ (k : ℕ) (lo hi : ℚ), lo < hi → lo ≤ p.rand k lo hi ∧ p.rand k lo hi < hi) :
    ∀ r ∈ runTrace p, ∀ lo hi, r.drew = some (lo, hi) → lo < hi := by
  exact loopGo_drew p hr (p.m + 2) (initState p) (finalState p) (runTrace p)
    (exitKind p) (runResult_eq p) (initState_BracketInv p ho)

/-- C9 witness: the run pW9 starts from the widened bracket (its target 100
exceeds osize 2) with the midpoint draw, and every recorded draw interval of
its trace is nonempty. -/
theorem c9_bracket_nonempty_witness :
    0 < pW9.osize ∧
      ∀ r ∈ runTrace pW9, ∀ lo hi, r.drew = some (lo, hi) → lo < hi := by
  have ho : 0 < pW9.osize := by norm_num [pW9]
  exact ⟨ho, c9_bracket_nonempty pW9 ho fun k lo hi hlt => midRand_spec k lo hi hlt⟩

/-- C10: if no iteration of the run ever measures an encoded size strictly
below the target (the boundary size = target included, since the best update
requires a strictly negative difference), Best-Known is never updated: the
final best scale is 1.0, the final artifact is the unit re-encoded at scale
1.0, the best size feeding the output file name is max(osize, target), and
the embedded name label is computed from that value, which can exceed the
target (see the witness). -/
theorem c10_no_best_update (p : SearchParams)
    (h : ∀ r ∈ runTrace p, (p.target : ℚ) ≤ r.size) :
    (finalState p).bestScale = 1 ∧
      (finalState p).bestSize = max (p.osize : ℚ) (p.target : ℚ) ∧
      finalOutputSize p = p.encSize 1 ∧
      outputLabel (finalState p).bestSize =
        outputLabel (max (p.osize : ℚ) (p.target : ℚ)) := by
  have hc := loopGo_best_const p (p.m + 2) (initState p) (finalState p) (runTrace p)
    (exitKind p) (runResult_eq p) h
  obtain ⟨h1, _, h3⟩ := hc
  have hscale : (finalState p).bestScale = 1 := by rw [h1]; rfl
  have hsize : (finalState p).bestSize = max (p.osize : ℚ) (p.target : ℚ) := by
    rw [h3]
    show psize p = _
    exact psize_eq_max p
  refine ⟨hscale, hsize, ?_, ?_⟩
  · unfold finalOutputSize
    rw [hscale]
  · rw [hsize]

/-- C10 witness: in the run pW10 every measured candidate is 1500, at or
above the target 1000, Best-Known stays at scale 1.0 with best size
max(1500, 1000) = 1500, and that size exceeds the target. -/
theorem c10_no_best_update_witness :
    (∀ r ∈ runTrace pW10, (pW10.target : ℚ) ≤ r.size) ∧
      ((finalState pW10).bestScale = 1 ∧
        (finalState pW10).bestSize = max (pW10.osize : ℚ) (pW10.target : ℚ) ∧
        finalOutputSize pW10 = pW10.encSize 1 ∧
        outputLabel (finalState pW10).bestSize =
          outputLabel (max (pW10.osize : ℚ) (pW10.target : ℚ))) ∧
      (pW10.target : ℚ) < max (pW10.osize : ℚ) (pW10.target : ℚ) := by
  have hmd : mDiff pW10 (initState pW10) = 500 := by
    norm_num [mDiff, curSize, initState, pW10]
  have hb : breakCond pW10 (measureStep pW10 (initState pW10)) = true := by
    unfold breakCond
    rw [measureStep_diff, hmd]
    have habs : decide (|(500 : ℚ)| < ((pW10.byteDiff : ℕ) : ℚ)) = true := by
      rw [decide_eq_true_iff]
      norm_num [pW10]
    rw [habs]
    simp
  obtain ⟨hfs, htr, hek⟩ := run_break0 pW10 hb
  have hhyp : ∀ r ∈ runTrace pW10, (pW10.target : ℚ) ≤ r.size := by
    intro r hmem
    rw [htr, List.mem_singleton] at hmem
    subst hmem
    rw [mkRecord_size, measureStep_imgsize]
    norm_num [curSize, initState, pW10]
  have hmax : max ((pW10.osize : ℕ) : ℚ) ((pW10.target : ℕ) : ℚ) = ((pW10.osize : ℕ) : ℚ) :=
    max_eq_left (by norm_num [pW10])
  refine ⟨hhyp, c10_no_best_update pW10 hhyp, ?_⟩
  rw [hmax]
  norm_num [pW10]

end Autosize
